import Mathlib

/-!
Shallow embedding of `lora_loader.py` (`HunyuanVideoLoraLoader`) from the
ComfyUI-HunyuanVideoMultiLora repository, together with theorems settling
the specification's claims about it.

String operations mirror Python `str` semantics: `startswith`,
substring membership (`in`), `split(".", 1)[0]`, slicing off a prefix,
and `str.replace` (replace all non-overlapping occurrences, scanning
left to right, never rescanning replacement text).  They are implemented
structurally over `List Char` so that every definition is executable and
kernel-reducible.
-/

namespace HVL

/-- Character equality through code points (same relation as `c == d`,
stated on `Nat` so that concrete instances reduce quickly). -/
def charEq (c d : Char) : Bool := c.toNat == d.toNat

/-- Python `s.startswith(p)` on character lists. -/
def isPreL : List Char → List Char → Bool
  | [], _ => true
  | _ :: _, [] => false
  | c :: cs, d :: ds => charEq c d && isPreL cs ds

/-- Python `pattern in s` (substring membership) on character lists. -/
def infixOfL (pat : List Char) : List Char → Bool
  | [] => pat.isEmpty
  | c :: rest => isPreL pat (c :: rest) || infixOfL pat rest

/-- Fuel-driven worker for Python `s.replace(pat, rep)` with a non-empty
pattern: replace every non-overlapping occurrence, scanning left to
right and not rescanning replacement text.  Each step consumes at least
one input character, so fuel equal to the input length is enough; the
recursion is structural on the fuel so that it reduces in the kernel. -/
def replaceGo (pat rep : List Char) : Nat → List Char → List Char
  | 0, l => l
  | fuel + 1, l =>
    match l with
    | [] => []
    | c :: rest =>
      if isPreL pat (c :: rest) then
        rep ++ replaceGo pat rep fuel (rest.drop (pat.length - 1))
      else
        c :: replaceGo pat rep fuel rest

/-- Python `s.replace(pat, rep)` on character lists (empty pattern unused
by the embedded code; returned unchanged). -/
def replaceL (pat rep l : List Char) : List Char :=
  match pat with
  | [] => l
  | _ :: _ => replaceGo pat rep l.length l

/-- Characters of a string up to (excluding) the first occurrence of `sep`:
Python `s.split(sep, 1)[0]` for a one-character separator. -/
def takeUntilL (sep : Char) : List Char → List Char
  | [] => []
  | c :: rest => if c == sep then [] else c :: takeUntilL sep rest

/-- Python `s == t` on strings. -/
def strEq (s t : String) : Bool := isPreL s.data t.data && isPreL t.data s.data

/-- Python `s.startswith(p)`. -/
def strStartsWith (s p : String) : Bool := isPreL p.data s.data

/-- Python `p in s` (substring membership). -/
def strContains (s p : String) : Bool := infixOfL p.data s.data

/-- Python `s[n:]` (drop the first `n` characters). -/
def strDrop (s : String) (n : Nat) : String := ⟨s.data.drop n⟩

/-- Python `s.replace(pat, rep)`. -/
def strReplace (s pat rep : String) : String := ⟨replaceL pat.data rep.data s.data⟩

/-- Python `s.split(".", 1)[0]`: the part of `s` before its first dot. -/
def strBeforeDot (s : String) : String := ⟨takeUntilL '.' s.data⟩

/-- Python `len(s)`. -/
def strLen (s : String) : Nat := s.data.length

/--
Weight tensors, modelled as a free algebra over the operations the loader
performs on them (`torch` owns the actual numerics).  `raw` carries an
identity and a shape; `div`, `sqrtT` and `mulT` record `tensor / n`,
`tensor.sqrt()` and `tensor * tensor` symbolically.
-/
inductive Tensor where
  | raw (id : Nat) (shape : List Nat)
  | div (t : Tensor) (n : Nat)
  | sqrtT (t : Tensor)
  | mulT (t s : Tensor)
deriving DecidableEq, Repr

/-- `t.shape`, propagated through the recorded operations (scalar
division, square root and scalar multiplication preserve the left
operand's shape). -/
def Tensor.shapeOf : Tensor → List Nat
  | .raw _ s => s
  | .div t _ => t.shapeOf
  | .sqrtT t => t.shapeOf
  | .mulT t _ => t.shapeOf

/-- Python `t.shape[0]`. -/
def shape0 (t : Tensor) : Nat := t.shapeOf.headD 0

/-- Python `t.shape[1]`. -/
def shape1 (t : Tensor) : Nat := (t.shapeOf.drop 1).headD 0

/-- A Python `dict[str, Tensor]` in insertion order. -/
abbrev WeightMapping := List (String × Tensor)

/-- First-match association lookup: Python `d[k]` / `k in d`. -/
def lookupW {α : Type} (m : List (String × α)) (k : String) : Option α :=
  match m with
  | [] => none
  | (k', v) :: rest => if strEq k' k then some v else lookupW rest k

/-- Python `d[k] = v`: overwrite in place if the key exists, else append. -/
def insertD {α : Type} (m : List (String × α)) (k : String) (v : α) :
    List (String × α) :=
  match m with
  | [] => [(k, v)]
  | (k', v') :: rest =>
    if strEq k' k then (k, v) :: rest else (k', v') :: insertD rest k v

/-- `convert_key_format` (lora_loader.py lines 44-53): strip the first
matching prefix among `"diffusion_model."`, `"transformer."` (the loop
breaks after the first match), leaving other keys unchanged. -/
def convert_key_format (key : String) : String :=
  if strStartsWith key "diffusion_model." then strDrop key (strLen "diffusion_model.")
  else if strStartsWith key "transformer." then strDrop key (strLen "transformer.")
  else key

/-- `filter_lora_keys` (lora_loader.py lines 55-70).  The Python guard
`blocks_type == "single_blocks" in base_key` is a chained comparison:
`(blocks_type == "single_blocks") and ("single_blocks" in base_key)`,
and likewise for the `double_blocks` branch. -/
def filter_lora_keys (lora : WeightMapping) (blocks_type : String) : WeightMapping :=
  if strEq blocks_type "all" then lora
  else
    lora.foldl (fun filtered kv =>
      let base_key := convert_key_format kv.1
      if strEq blocks_type "single_blocks" && strContains base_key "single_blocks" then
        insertD filtered kv.1 kv.2
      else if strEq blocks_type "double_blocks" && strContains base_key "double_blocks" then
        insertD filtered kv.1 kv.2
      else filtered) []

/-- The sentinel key marker `"lora_unet_"` of the Musubi naming scheme. -/
def musubiSentinel : String := "lora_unet_"

/-- One step of the alpha-collection loop of `check_for_musubi`
(lora_loader.py lines 77-82): state is `(lora_alphas, musubi)`. -/
def scanStep (st : List (String × Tensor) × Bool) (kv : String × Tensor) :
    List (String × Tensor) × Bool :=
  if strStartsWith kv.1 musubiSentinel then
    let lora_name := strBeforeDot kv.1
    if (lookupW st.1 lora_name).isNone && strContains kv.1 "alpha" then
      (insertD st.1 lora_name kv.2, true)
    else st
  else st

/-- The alpha-collection pass of `check_for_musubi`: returns the
`ScaleTable` (`lora_alphas`) and the `musubi` detection flag. -/
def scanAlphas (lora : WeightMapping) : List (String × Tensor) × Bool :=
  lora.foldl scanStep ([], false)

/-- Module-name derivation inside `check_for_musubi`
(lora_loader.py lines 92-98): strip the sentinel, then apply the fixed
ordered sequence of textual substitutions. -/
def moduleNameOf (lora_name : String) : String :=
  let m := strDrop lora_name (strLen musubiSentinel)
  let m := strReplace m "_" "."
  let m := strReplace m "double.blocks." "double_blocks."
  let m := strReplace m "single.blocks." "single_blocks."
  let m := strReplace m "img." "img_"
  let m := strReplace m "txt." "txt_"
  let m := strReplace m "attn." "attn_"
  m

/-- `diffusers_prefix` of lora_loader.py line 99. -/
def diffusersPre : String := "diffusion_model"

/-- Printed when the conversion branch is taken (line 84). -/
def musubiMsg : String := "Loading Musubi Tuner format LoRA..."

/-- Printed when the input is already canonical (line 120). -/
def diffusersMsg : String := "Loading Diffusers format LoRA..."

/-- Diagnostic of line 107 for a key matching neither role marker. -/
def unexpectedMsg (key : String) : String :=
  "unexpected key: " ++ key ++ " in Musubi LoRA format"

/-- Diagnostic of line 116 for a module lacking an alpha record. -/
def missingAlphaMsg (lora_name : String) : String :=
  "missing alpha for " ++ lora_name

/-- One step of the conversion loop of `check_for_musubi`
(lora_loader.py lines 86-117): the accumulator is
`(converted_lora, printed diagnostics)`. -/
def convertStep (lora_alphas : List (String × Tensor))
    (acc : WeightMapping × List String) (kv : String × Tensor) :
    WeightMapping × List String :=
  let key := kv.1
  let weight := kv.2
  if strStartsWith key musubiSentinel then
    if strContains key "alpha" then acc
    else
      let lora_name := strBeforeDot key
      let module_name := moduleNameOf lora_name
      let role :=
        if strContains key "lora_down" then
          some (diffusersPre ++ "." ++ module_name ++ ".lora_A.weight", shape0 weight)
        else if strContains key "lora_up" then
          some (diffusersPre ++ "." ++ module_name ++ ".lora_B.weight", shape1 weight)
        else none
      match role with
      | none => (acc.1, acc.2 ++ [unexpectedMsg key])
      | some (new_key, dim) =>
        match lookupW lora_alphas lora_name with
        | some alphaT =>
          let scale := Tensor.sqrtT (Tensor.div alphaT dim)
          (insertD acc.1 new_key (Tensor.mulT weight scale), acc.2)
        | none =>
          (insertD acc.1 new_key weight, acc.2 ++ [missingAlphaMsg lora_name])
  else acc

/-- `check_for_musubi` (lora_loader.py lines 72-121), returning the
resulting mapping together with the list of printed lines in order. -/
def check_for_musubi (lora : WeightMapping) : WeightMapping × List String :=
  let scanned := scanAlphas lora
  if scanned.2 then
    lora.foldl (convertStep scanned.1) ([], [musubiMsg])
  else
    (lora, [diffusersMsg])

/-- Observable side effects of one `load_lora` invocation. -/
inductive Effect where
  | resolvePath (lora_name : String)
  | checkExists (path : String)
  | loadFile (path : String)
  | applyPatch
deriving DecidableEq, Repr

/-- Instance state of `HunyuanVideoLoraLoader`: the single-slot cache
`self.loaded_lora`. -/
structure LoaderState where
  loaded_lora : Option (String × WeightMapping)
deriving DecidableEq, Repr

/-- The cache block of `load_lora` (lora_loader.py lines 155-164):
returns the mapping to use, the new cache slot, and the number of
`load_torch_file` calls performed. -/
def cacheLoad (st : Option (String × WeightMapping)) (lora_path : String)
    (load_torch_file : String → WeightMapping) :
    WeightMapping × Option (String × WeightMapping) × Nat :=
  match st with
  | some (p, l) =>
    if strEq p lora_path then (l, some (p, l), 0)
    else
      let lora := load_torch_file lora_path
      (lora, some (lora_path, lora), 1)
  | none =>
    let lora := load_torch_file lora_path
    (lora, some (lora_path, lora), 1)

/-- `load_lora` (lora_loader.py lines 123-175).  External collaborators
(path registry, filesystem, deserializer, model patcher) are passed as
function parameters; the result records the returned model (or the
raised "not found" message), the updated instance state, and the
observable effects in order. -/
def load_lora {M S : Type} (st : LoaderState) (model : M) (lora_name : String)
    (strength : S) (blocks_type : String)
    (get_full_path : String → String) (path_exists : String → Bool)
    (load_torch_file : String → WeightMapping)
    (load_lora_for_models : M → WeightMapping → S → Option M) :
    Except String M × LoaderState × List Effect :=
  if strEq lora_name "" then (Except.ok model, st, [])
  else
    let lora_path := get_full_path lora_name
    if path_exists lora_path then
      let r := cacheLoad st.loaded_lora lora_path load_torch_file
      let lora := r.1
      let st' : LoaderState := ⟨r.2.1⟩
      let loadEff := if r.2.2 = 1 then [Effect.loadFile lora_path] else []
      let diffusers_lora := (check_for_musubi lora).1
      let filtered_lora := filter_lora_keys diffusers_lora blocks_type
      let eff := [Effect.resolvePath lora_name, Effect.checkExists lora_path] ++
        loadEff ++ [Effect.applyPatch]
      match load_lora_for_models model filtered_lora strength with
      | some new_model => (Except.ok new_model, st', eff)
      | none => (Except.ok model, st', eff)
    else
      (Except.error ("Lora " ++ lora_name ++ " not found at " ++ lora_path), st,
        [Effect.resolvePath lora_name, Effect.checkExists lora_path])

/-! ### Helper lemmas about the string primitives -/

theorem charEq_refl (c : Char) : charEq c c = true := by
  simp [charEq]

theorem charEq_eq_true_iff (c d : Char) : charEq c d = true ↔ c = d := by
  constructor
  · intro h
    have hn : c.toNat = d.toNat := by simpa [charEq] using h
    have hv : c.val = d.val := by
      unfold Char.toNat at hn
      exact UInt32.toNat.inj hn
    exact Char.eq_of_val_eq hv
  · rintro rfl
    exact charEq_refl c

theorem isPreL_refl (l : List Char) : isPreL l l = true := by
  induction l with
  | nil => rfl
  | cons c cs ih => simp [isPreL, charEq_refl, ih]

theorem isPreL_append (p l : List Char) : isPreL p (p ++ l) = true := by
  induction p with
  | nil => rfl
  | cons c cs ih => simp [isPreL, charEq_refl, ih]

theorem isPreL_antisymm (s : List Char) :
    ∀ t : List Char, (isPreL s t && isPreL t s) = true → s = t := by
  induction s with
  | nil =>
    intro t h
    cases t with
    | nil => rfl
    | cons d ds => simp [isPreL] at h
  | cons c cs ih =>
    intro t h
    cases t with
    | nil => simp [isPreL] at h
    | cons d ds =>
      simp only [isPreL, Bool.and_eq_true] at h
      obtain ⟨⟨h1, h2⟩, h3, h4⟩ := h
      obtain rfl : c = d := (charEq_eq_true_iff c d).mp h1
      have := ih ds (by simp [h2, h4])
      simp [this]

theorem strEq_refl (s : String) : strEq s s = true := by
  simp [strEq, isPreL_refl]

theorem strEq_eq_true_iff (s t : String) : strEq s t = true ↔ s = t := by
  constructor
  · intro h
    have hd : s.data = t.data := isPreL_antisymm s.data t.data (by simpa [strEq] using h)
    cases s
    cases t
    exact congrArg String.mk hd
  · rintro rfl
    exact strEq_refl s

theorem strEq_eq_false_of_ne {s t : String} (h : s ≠ t) : strEq s t = false := by
  cases hq : strEq s t
  · rfl
  · exact absurd ((strEq_eq_true_iff s t).mp hq) h

/-! ### Claim theorems -/

/-- C8: the Key Normalizer `convert_key_format` is the identity on keys
with no known prefix; a key that decomposes as a known prefix followed by
a remainder is mapped to exactly that remainder (the matching prefix is
removed once and the remainder is untouched; only the first matching
prefix in the fixed order `diffusion_model.`, `transformer.` is
removed — the two prefixes are mutually exclusive, so the priority order
is vacuous beyond the `break` after the first match). -/
theorem normalizer_behavior (key : String) :
    (strStartsWith key "diffusion_model." = false →
      strStartsWith key "transformer." = false →
      convert_key_format key = key) ∧
    (∀ r : String, key = "diffusion_model." ++ r → convert_key_format key = r) ∧
    (∀ r : String, key = "transformer." ++ r → convert_key_format key = r) := by
  refine ⟨fun h1 h2 => by simp [convert_key_format, h1, h2], ?_, ?_⟩
  · rintro r rfl
    have hs : strStartsWith ("diffusion_model." ++ r) "diffusion_model." = true := by
      simp only [strStartsWith, String.data_append]
      exact isPreL_append _ r.data
    simp only [convert_key_format, hs, if_true, strDrop, strLen, String.data_append]
    rw [List.drop_left]
  · rintro r rfl
    have hd : strStartsWith ("transformer." ++ r) "diffusion_model." = false := by
      simp only [strStartsWith, String.data_append]
      rfl
    have hs : strStartsWith ("transformer." ++ r) "transformer." = true := by
      simp only [strStartsWith, String.data_append]
      exact isPreL_append _ r.data
    simp only [convert_key_format, hd, hs, Bool.false_eq_true, if_false, if_true,
      strDrop, strLen, String.data_append]
    rw [List.drop_left]

/-- C8 witness: the Normalizer strips the `diffusion_model.` prefix from
a concrete key. -/
theorem normalizer_behavior_witness :
    convert_key_format "diffusion_model.single_blocks.0.w" = "single_blocks.0.w" := by
  have h := (normalizer_behavior "diffusion_model.single_blocks.0.w").2.1
    "single_blocks.0.w" (by decide)
  exact h

/-- C10: calling `load_lora` with an empty (falsy) `lora_name` returns
the input model unchanged, leaves the cache slot untouched, and performs
no path resolution, no existence check, no file read, and no patch
application (the effect trace is empty). -/
theorem empty_name_noop {M S : Type} (st : LoaderState) (model : M) (strength : S)
    (blocks_type : String) (get_full_path : String → String)
    (path_exists : String → Bool) (load_torch_file : String → WeightMapping)
    (load_lora_for_models : M → WeightMapping → S → Option M) :
    load_lora st model "" strength blocks_type get_full_path path_exists
      load_torch_file load_lora_for_models = (Except.ok model, st, []) := rfl

/-- C4: the single-slot cache of `load_lora`: a request for the cached
path returns the cached mapping with zero `load_torch_file` calls and an
unchanged slot; a request for a different path performs exactly one
`load_torch_file` call and replaces the slot with the new pair; a cold
cache also loads exactly once and fills the slot. -/
theorem load_cache_behavior (P Q : String) (m : WeightMapping)
    (load_torch_file : String → WeightMapping) (h : P ≠ Q) :
    cacheLoad (some (P, m)) P load_torch_file = (m, some (P, m), 0) ∧
    cacheLoad (some (P, m)) Q load_torch_file =
      (load_torch_file Q, some (Q, load_torch_file Q), 1) ∧
    cacheLoad none P load_torch_file =
      (load_torch_file P, some (P, load_torch_file P), 1) := by
  refine ⟨?_, ?_, rfl⟩
  · simp [cacheLoad, strEq_refl]
  · simp [cacheLoad, strEq_eq_false_of_ne h]

/-- C4 witness: cache behavior at concrete paths `"a"` and `"b"`. -/
theorem load_cache_behavior_witness :
    cacheLoad (some ("a", [])) "a" (fun _ => [("k", Tensor.raw 0 [])]) =
      ([], some ("a", []), 0) ∧
    cacheLoad (some ("a", [])) "b" (fun _ => [("k", Tensor.raw 0 [])]) =
      ([("k", Tensor.raw 0 [])], some ("b", [("k", Tensor.raw 0 [])]), 1) := by
  have h := load_cache_behavior "a" "b" [] (fun _ => [("k", Tensor.raw 0 [])]) (by decide)
  exact ⟨h.1, h.2.1⟩

theorem scanStep_not_sentinel (st : List (String × Tensor) × Bool) (kv : String × Tensor)
    (h : strStartsWith kv.1 musubiSentinel = false) : scanStep st kv = st := by
  simp [scanStep, h]

theorem scanStep_inv (st : List (String × Tensor) × Bool) (kv : String × Tensor)
    (hinv : st.1 = [] ∨ st.2 = true) :
    (scanStep st kv).1 = [] ∨ (scanStep st kv).2 = true := by
  unfold scanStep
  split
  · dsimp only
    split
    · right
      rfl
    · exact hinv
  · exact hinv

theorem scanStep_snd_iff (st : List (String × Tensor) × Bool) (kv : String × Tensor)
    (hinv : st.1 = [] ∨ st.2 = true) :
    ((scanStep st kv).2 = true ↔
      st.2 = true ∨
        (strStartsWith kv.1 musubiSentinel = true ∧ strContains kv.1 "alpha" = true)) := by
  by_cases h1 : strStartsWith kv.1 musubiSentinel = true
  · by_cases h2 : strContains kv.1 "alpha" = true
    · by_cases h3 : (lookupW st.1 (strBeforeDot kv.1)).isNone = true
      · simp [scanStep, h1, h2, h3]
      · have hne : st.1 ≠ [] := by
          intro he
          rw [he] at h3
          simp [lookupW] at h3
        rcases hinv with h | h
        · exact absurd h hne
        · simp [scanStep, h1, h2, h3, h]
    · have h2' : strContains kv.1 "alpha" = false := by simpa using h2
      simp [scanStep, h1, h2']
  · have h1' : strStartsWith kv.1 musubiSentinel = false := by simpa using h1
    simp [scanStep, h1']

theorem foldl_scanStep_snd_iff (l : List (String × Tensor))
    (st : List (String × Tensor) × Bool) (hinv : st.1 = [] ∨ st.2 = true) :
    ((l.foldl scanStep st).2 = true ↔
      st.2 = true ∨
        ∃ kv ∈ l, strStartsWith kv.1 musubiSentinel = true ∧
          strContains kv.1 "alpha" = true) := by
  induction l generalizing st with
  | nil => simp
  | cons kv l ih =>
    rw [List.foldl_cons, ih _ (scanStep_inv st kv hinv), scanStep_snd_iff st kv hinv]
    simp only [List.mem_cons]
    constructor
    · rintro (⟨h | h⟩ | ⟨kv', hm, hp⟩)
      · exact Or.inl h
      · exact Or.inr ⟨kv, Or.inl rfl, h⟩
      · exact Or.inr ⟨kv', Or.inr hm, hp⟩
    · rintro (h | ⟨kv', hm | hm, hp⟩)
      · exact Or.inl (Or.inl h)
      · subst hm
        exact Or.inl (Or.inr hp)
      · exact Or.inr ⟨kv', hm, hp⟩

theorem foldl_scanStep_id (l : List (String × Tensor)) (st : List (String × Tensor) × Bool)
    (h : ∀ kv ∈ l, strStartsWith kv.1 musubiSentinel = false) :
    l.foldl scanStep st = st := by
  induction l generalizing st with
  | nil => rfl
  | cons kv l ih =>
    rw [List.foldl_cons, scanStep_not_sentinel st kv (h kv (by simp))]
    exact ih st (fun kv' hm => h kv' (by simp [hm]))

/-- C2 counterexample: a mapping whose only key starts with the sentinel
`lora_unet_` but carries no alpha entry is NOT detected as Musubi format:
the detection flag is false and `check_for_musubi` returns the input
unchanged with the Diffusers-format message, so presence of a
sentinel-prefixed key alone does not make the conversion branch run. -/
theorem musubi_detection_cex :
    strStartsWith "lora_unet_x.lora_down.weight" musubiSentinel = true ∧
    (scanAlphas [("lora_unet_x.lora_down.weight", Tensor.raw 0 [2, 3])]).2 = false ∧
    check_for_musubi [("lora_unet_x.lora_down.weight", Tensor.raw 0 [2, 3])] =
      ([("lora_unet_x.lora_down.weight", Tensor.raw 0 [2, 3])], [diffusersMsg]) := by
  refine ⟨by decide, by decide, by decide⟩

/-- C2 amended: `check_for_musubi` decides that a mapping is in Musubi
format if and only if some key both starts with the sentinel
`lora_unet_` AND contains `alpha` as a substring; whenever the flag is
false (in particular for every mapping with no such key) the input
mapping is returned unchanged. -/
theorem musubi_detection_amended (lora : WeightMapping) :
    ((scanAlphas lora).2 = true ↔
      ∃ kv ∈ lora, strStartsWith kv.1 musubiSentinel = true ∧
        strContains kv.1 "alpha" = true) ∧
    ((scanAlphas lora).2 = false → check_for_musubi lora = (lora, [diffusersMsg])) := by
  constructor
  · simpa using foldl_scanStep_snd_iff lora ([], false) (Or.inl rfl)
  · intro h
    simp [check_for_musubi, h]

/-- C2 amended witness: a mapping holding a sentinel key with an alpha
entry is detected, and a mapping with a sentinel key but no alpha entry
is returned unchanged. -/
theorem musubi_detection_amended_witness :
    (scanAlphas [("lora_unet_x.alpha", Tensor.raw 0 [])]).2 = true ∧
    check_for_musubi [("lora_unet_x.lora_up.weight", Tensor.raw 1 [2, 3])] =
      ([("lora_unet_x.lora_up.weight", Tensor.raw 1 [2, 3])], [diffusersMsg]) := by
  constructor
  · exact (musubi_detection_amended [("lora_unet_x.alpha", Tensor.raw 0 [])]).1.mpr
      ⟨("lora_unet_x.alpha", Tensor.raw 0 []), by simp, by decide, by decide⟩
  · exact (musubi_detection_amended [("lora_unet_x.lora_up.weight", Tensor.raw 1 [2, 3])]).2
      (by decide)

/-- C5: a weight mapping none of whose keys starts with the sentinel
`lora_unet_` is returned unchanged by `check_for_musubi` (same keys,
same values, in the same order), with the Diffusers-format message. -/
theorem canonical_identity (lora : WeightMapping)
    (h : ∀ kv ∈ lora, strStartsWith kv.1 musubiSentinel = false) :
    check_for_musubi lora = (lora, [diffusersMsg]) := by
  have hscan : scanAlphas lora = ([], false) := foldl_scanStep_id lora ([], false) h
  simp [check_for_musubi, hscan]

/-- C5 witness: a canonical-format mapping passes through unchanged. -/
theorem canonical_identity_witness :
    check_for_musubi
      [("diffusion_model.single_blocks.0.attn_qkv.lora_A.weight", Tensor.raw 0 [4, 7]),
       ("double_blocks.1.txt_mod.lora_B.weight", Tensor.raw 1 [7, 6])] =
      ([("diffusion_model.single_blocks.0.attn_qkv.lora_A.weight", Tensor.raw 0 [4, 7]),
        ("double_blocks.1.txt_mod.lora_B.weight", Tensor.raw 1 [7, 6])],
       [diffusersMsg]) := by
  exact canonical_identity _ (by decide)

theorem convertStep_not_sentinel (lora_alphas : List (String × Tensor))
    (acc : WeightMapping × List String) (kv : String × Tensor)
    (h : strStartsWith kv.1 musubiSentinel = false) :
    convertStep lora_alphas acc kv = acc := by
  simp [convertStep, h]

theorem foldl_scanStep_filter (l : List (String × Tensor))
    (st : List (String × Tensor) × Bool) :
    l.foldl scanStep st =
      (l.filter (fun kv => strStartsWith kv.1 musubiSentinel)).foldl scanStep st := by
  induction l generalizing st with
  | nil => rfl
  | cons kv l ih =>
    by_cases h : strStartsWith kv.1 musubiSentinel = true
    · simp only [List.foldl_cons, List.filter_cons, h, if_true]
      exact ih (scanStep st kv)
    · have h' : strStartsWith kv.1 musubiSentinel = false := by simpa using h
      simp only [List.foldl_cons, List.filter_cons, h', Bool.false_eq_true, if_false,
        scanStep_not_sentinel st kv h']
      exact ih st

theorem foldl_convertStep_filter (lora_alphas : List (String × Tensor))
    (l : List (String × Tensor)) (acc : WeightMapping × List String) :
    l.foldl (convertStep lora_alphas) acc =
      (l.filter (fun kv => strStartsWith kv.1 musubiSentinel)).foldl
        (convertStep lora_alphas) acc := by
  induction l generalizing acc with
  | nil => rfl
  | cons kv l ih =>
    by_cases h : strStartsWith kv.1 musubiSentinel = true
    · simp only [List.foldl_cons, List.filter_cons, h, if_true]
      exact ih (convertStep lora_alphas acc kv)
    · have h' : strStartsWith kv.1 musubiSentinel = false := by simpa using h
      simp only [List.foldl_cons, List.filter_cons, h', Bool.false_eq_true, if_false,
        convertStep_not_sentinel lora_alphas acc kv h']
      exact ih acc

/-- C9: keys that do not start with the sentinel `lora_unet_` contribute
nothing to `check_for_musubi`: the scanning pass and (when the
conversion branch is taken) the whole conversion result coincide with
those of the mapping with every non-sentinel key removed — so such a key
appears neither under its original nor under any converted name in the
output, and no diagnostic is emitted for it. -/
theorem non_sentinel_silently_dropped (lora : WeightMapping) :
    scanAlphas lora =
      scanAlphas (lora.filter (fun kv => strStartsWith kv.1 musubiSentinel)) ∧
    ((scanAlphas lora).2 = true →
      check_for_musubi lora =
        check_for_musubi (lora.filter (fun kv => strStartsWith kv.1 musubiSentinel))) := by
  have h1 : scanAlphas lora =
      scanAlphas (lora.filter (fun kv => strStartsWith kv.1 musubiSentinel)) :=
    foldl_scanStep_filter lora ([], false)
  refine ⟨h1, fun hm => ?_⟩
  simp only [check_for_musubi, ← h1, hm, if_true]
  exact foldl_convertStep_filter (scanAlphas lora).1 lora ([], [musubiMsg])

/-- C9 witness: a non-sentinel key mixed into a Musubi-format mapping is
dropped from both the scan and the conversion result. -/
theorem non_sentinel_silently_dropped_witness :
    check_for_musubi
      [("stray.weight", Tensor.raw 9 [1]),
       ("lora_unet_x.alpha", Tensor.raw 0 [])] =
      check_for_musubi [("lora_unet_x.alpha", Tensor.raw 0 [])] := by
  have h := (non_sentinel_silently_dropped
    [("stray.weight", Tensor.raw 9 [1]), ("lora_unet_x.alpha", Tensor.raw 0 [])]).2
    (by decide)
  rw [h]
  decide

/-- C7: during the conversion pass, a sentinel-prefixed non-alpha key
containing neither the `lora_down` nor the `lora_up` role marker only
appends the "unexpected key" diagnostic and leaves the accumulated
output mapping untouched, for every scale table and accumulator — so the
key contributes no output entry while the fold over the remaining keys
continues. -/
theorem unexpected_key_skipped (lora_alphas : List (String × Tensor))
    (acc : WeightMapping × List String) (key : String) (w : Tensor)
    (hs : strStartsWith key musubiSentinel = true)
    (ha : strContains key "alpha" = false)
    (hd : strContains key "lora_down" = false)
    (hu : strContains key "lora_up" = false) :
    convertStep lora_alphas acc (key, w) = (acc.1, acc.2 ++ [unexpectedMsg key]) := by
  simp [convertStep, hs, ha, hd, hu]

/-- C7 witness: a malformed sentinel key is skipped with one diagnostic
and adds nothing to the output mapping. -/
theorem unexpected_key_skipped_witness :
    convertStep [] ([], []) ("lora_unet_b.foo.weight", Tensor.raw 0 []) =
      ([], [unexpectedMsg "lora_unet_b.foo.weight"]) := by
  exact unexpected_key_skipped [] ([], []) "lora_unet_b.foo.weight" (Tensor.raw 0 [])
    (by decide) (by decide) (by decide) (by decide)

/-- C6 counterexample: in a conversion where module `lora_unet_b` has a
down-projection and an up-projection key but no alpha entry (another
module supplies the alpha that triggers the branch), the "missing alpha"
diagnostic for `lora_unet_b` is emitted twice — once per projection
key — not exactly once per module as the claim states. -/
theorem missing_alpha_per_module_cex :
    (((check_for_musubi
        [("lora_unet_a.alpha", Tensor.raw 0 []),
         ("lora_unet_b.lora_down.weight", Tensor.raw 1 [2, 3]),
         ("lora_unet_b.lora_up.weight", Tensor.raw 2 [3, 4])]).2.filter
      (fun m => strEq m (missingAlphaMsg "lora_unet_b"))).length = 2) ∧
    ¬ (((check_for_musubi
        [("lora_unet_a.alpha", Tensor.raw 0 []),
         ("lora_unet_b.lora_down.weight", Tensor.raw 1 [2, 3]),
         ("lora_unet_b.lora_up.weight", Tensor.raw 2 [3, 4])]).2.filter
      (fun m => strEq m (missingAlphaMsg "lora_unet_b"))).length = 1) := by
  refine ⟨by decide, by decide⟩

/-- C6 amended: during conversion, every sentinel-prefixed non-alpha key
with a projection-role marker whose module has no entry in the scale
table is output UNSCALED (the weight tensor is inserted as-is, scale
factor one) and appends exactly one "missing alpha" diagnostic for that
key; a module contributing both a down and an up key therefore receives
one diagnostic per key, and processing continues. -/
theorem missing_alpha_amended (lora_alphas : List (String × Tensor))
    (acc : WeightMapping × List String) (key : String) (w : Tensor)
    (hs : strStartsWith key musubiSentinel = true)
    (ha : strContains key "alpha" = false)
    (hm : lookupW lora_alphas (strBeforeDot key) = none) :
    (strContains key "lora_down" = true →
      convertStep lora_alphas acc (key, w) =
        (insertD acc.1
          (diffusersPre ++ "." ++ moduleNameOf (strBeforeDot key) ++ ".lora_A.weight") w,
         acc.2 ++ [missingAlphaMsg (strBeforeDot key)])) ∧
    (strContains key "lora_down" = false → strContains key "lora_up" = true →
      convertStep lora_alphas acc (key, w) =
        (insertD acc.1
          (diffusersPre ++ "." ++ moduleNameOf (strBeforeDot key) ++ ".lora_B.weight") w,
         acc.2 ++ [missingAlphaMsg (strBeforeDot key)])) := by
  constructor
  · intro hdn
    simp [convertStep, hs, ha, hdn, hm]
  · intro hdn hup
    simp [convertStep, hs, ha, hdn, hup, hm]

/-- C6 amended witness: an up-projection key of a module with no alpha
entry is inserted unscaled with one "missing alpha" diagnostic. -/
theorem missing_alpha_amended_witness :
    convertStep [] ([], []) ("lora_unet_b.lora_up.weight", Tensor.raw 2 [3, 4]) =
      ([("diffusion_model.b.lora_B.weight", Tensor.raw 2 [3, 4])],
       [missingAlphaMsg "lora_unet_b"]) := by
  have h := (missing_alpha_amended [] ([], []) "lora_unet_b.lora_up.weight"
    (Tensor.raw 2 [3, 4]) (by decide) (by decide) (by decide)).2 (by decide) (by decide)
  rw [h]
  decide

theorem insertD_of_fresh {α : Type} (acc : List (String × α)) (k : String) (v : α)
    (h : ∀ kv' ∈ acc, k ≠ kv'.1) : insertD acc k v = acc ++ [(k, v)] := by
  induction acc with
  | nil => rfl
  | cons kv' rest ih =>
    obtain ⟨k', v'⟩ := kv'
    have hne : strEq k' k = false :=
      strEq_eq_false_of_ne (fun he => h (k', v') (by simp) he.symm)
    simp only [insertD, hne, Bool.false_eq_true, if_false, List.cons_append,
      List.cons.injEq, true_and]
    exact ih (fun kv hm => h kv (by simp [hm]))

theorem foldl_insert_eq_filter (p : String × Tensor → Bool)
    (step : WeightMapping → String × Tensor → WeightMapping)
    (hstep : ∀ acc kv, step acc kv = if p kv then insertD acc kv.1 kv.2 else acc)
    (l : WeightMapping) :
    ∀ acc : WeightMapping, l.Pairwise (fun a b => a.1 ≠ b.1) →
      (∀ kv ∈ l, ∀ kv' ∈ acc, kv.1 ≠ kv'.1) →
      l.foldl step acc = acc ++ l.filter p := by
  induction l with
  | nil => simp
  | cons kv l ih =>
    intro acc hnd hacc
    rcases List.pairwise_cons.mp hnd with ⟨hhd, htl⟩
    rw [List.foldl_cons, hstep]
    by_cases hp : p kv = true
    · rw [if_pos hp,
        insertD_of_fresh acc kv.1 kv.2 (fun kv' h' => hacc kv (by simp) kv' h'),
        ih (acc ++ [kv]) htl ?_]
      · simp [List.filter_cons, hp]
      · intro kv2 h2 kv' h'
        rcases List.mem_append.mp h' with h' | h'
        · exact hacc kv2 (by simp [h2]) kv' h'
        · have : kv' = kv := by simpa using h'
          subst this
          exact (hhd kv2 h2).symm
    · have hp' : p kv = false := by simpa using hp
      rw [if_neg (by simp [hp']), ih acc htl (fun kv2 h2 => hacc kv2 (by simp [h2]))]
      simp [List.filter_cons, hp']

/-- C1 counterexample: with selector `single_blocks`, an entry whose key
belongs to a double block is NOT returned — `filter_lora_keys` is not a
no-op for non-`all` selectors, contradicting the claim that it returns
all entries of the input mapping. -/
theorem filter_noop_cex :
    filter_lora_keys [("double_blocks.0.w", Tensor.raw 0 [])] "single_blocks" = [] ∧
    ¬ (filter_lora_keys [("double_blocks.0.w", Tensor.raw 0 [])] "single_blocks" =
        [("double_blocks.0.w", Tensor.raw 0 [])]) := by
  refine ⟨by decide, by decide⟩

/-- C1 amended: for a mapping with pairwise-distinct keys and either
non-`all` selector, `filter_lora_keys` returns exactly the entries whose
normalized key contains the selector string as a substring, in input
order — the Python guard `blocks_type == "single_blocks" in base_key` is
a chained comparison equivalent to
`blocks_type == "single_blocks" and "single_blocks" in base_key`, so the
filter performs the intended substring selection rather than a no-op. -/
theorem filter_selects_blocks (lora : WeightMapping) (bt : String)
    (hnd : lora.Pairwise (fun a b => a.1 ≠ b.1))
    (hbt : bt = "single_blocks" ∨ bt = "double_blocks") :
    filter_lora_keys lora bt =
      lora.filter (fun kv => strContains (convert_key_format kv.1) bt) := by
  rcases hbt with rfl | rfl
  · unfold filter_lora_keys
    rw [if_neg (by decide)]
    rw [foldl_insert_eq_filter
      (fun kv => strContains (convert_key_format kv.1) "single_blocks") _ ?_ lora []
      hnd (by simp)]
    · simp
    · intro acc kv
      have e1 : strEq "single_blocks" "single_blocks" = true := rfl
      have e2 : strEq "single_blocks" "double_blocks" = false := rfl
      by_cases hc : strContains (convert_key_format kv.1) "single_blocks" = true
      · simp [e1, hc]
      · have hc' : strContains (convert_key_format kv.1) "single_blocks" = false := by
          simpa using hc
        simp [e1, e2, hc']
  · unfold filter_lora_keys
    rw [if_neg (by decide)]
    rw [foldl_insert_eq_filter
      (fun kv => strContains (convert_key_format kv.1) "double_blocks") _ ?_ lora []
      hnd (by simp)]
    · simp
    · intro acc kv
      have e1 : strEq "double_blocks" "single_blocks" = false := rfl
      have e2 : strEq "double_blocks" "double_blocks" = true := rfl
      by_cases hc : strContains (convert_key_format kv.1) "double_blocks" = true
      · simp [e1, e2, hc]
      · have hc' : strContains (convert_key_format kv.1) "double_blocks" = false := by
          simpa using hc
        simp [e1, e2, hc']

/-- C1 amended witness: the single-blocks entry is kept and the
double-blocks entry is dropped for selector `single_blocks`. -/
theorem filter_selects_blocks_witness :
    filter_lora_keys
      [("single_blocks.0.w", Tensor.raw 1 []), ("double_blocks.0.w", Tensor.raw 0 [])]
      "single_blocks" = [("single_blocks.0.w", Tensor.raw 1 [])] := by
  have h := filter_selects_blocks
    [("single_blocks.0.w", Tensor.raw 1 []), ("double_blocks.0.w", Tensor.raw 0 [])]
    "single_blocks" (by decide) (Or.inl rfl)
  rw [h]
  decide

set_option maxHeartbeats 4000000 in
/-- C3: the three-key Musubi mapping for module
`lora_unet_single_blocks_0_attn_qkv` — a down-projection weight `t1`
with first-axis length `d1`, an up-projection weight `t2` with
second-axis length `d2`, and an alpha entry `ta` — converts to exactly
the two canonical keys
`diffusion_model.single_blocks.0.attn_qkv.lora_A.weight` and
`diffusion_model.single_blocks.0.attn_qkv.lora_B.weight`, holding `t1`
scaled by `sqrt(ta / d1)` and `t2` scaled by `sqrt(ta / d2)`
respectively. -/
theorem musubi_e2e_conversion (t1 t2 ta : Tensor) (d1 d2 : Nat)
    (h1 : shape0 t1 = d1) (h2 : shape1 t2 = d2) :
    check_for_musubi
      [("lora_unet_single_blocks_0_attn_qkv.lora_down.weight", t1),
       ("lora_unet_single_blocks_0_attn_qkv.lora_up.weight", t2),
       ("lora_unet_single_blocks_0_attn_qkv.alpha", ta)] =
      ([("diffusion_model.single_blocks.0.attn_qkv.lora_A.weight",
         Tensor.mulT t1 (Tensor.sqrtT (Tensor.div ta d1))),
        ("diffusion_model.single_blocks.0.attn_qkv.lora_B.weight",
         Tensor.mulT t2 (Tensor.sqrtT (Tensor.div ta d2)))],
       [musubiMsg]) := by
  subst h1
  subst h2
  rfl

set_option maxHeartbeats 1000000 in
/-- C3 witness: the conversion at concrete tensors with `d1 = 4`,
`d2 = 6` and a scalar alpha. -/
theorem musubi_e2e_conversion_witness :
    check_for_musubi
      [("lora_unet_single_blocks_0_attn_qkv.lora_down.weight", Tensor.raw 1 [4, 7]),
       ("lora_unet_single_blocks_0_attn_qkv.lora_up.weight", Tensor.raw 2 [7, 6]),
       ("lora_unet_single_blocks_0_attn_qkv.alpha", Tensor.raw 3 [])] =
      ([("diffusion_model.single_blocks.0.attn_qkv.lora_A.weight",
         Tensor.mulT (Tensor.raw 1 [4, 7]) (Tensor.sqrtT (Tensor.div (Tensor.raw 3 []) 4))),
        ("diffusion_model.single_blocks.0.attn_qkv.lora_B.weight",
         Tensor.mulT (Tensor.raw 2 [7, 6]) (Tensor.sqrtT (Tensor.div (Tensor.raw 3 []) 6)))],
       [musubiMsg]) :=
  musubi_e2e_conversion (Tensor.raw 1 [4, 7]) (Tensor.raw 2 [7, 6]) (Tensor.raw 3 [])
    4 6 rfl rfl

end HVL
